import Mathlib

/-
Verification of the scheduling orchestrator of
sigs.k8s.io/gateway-api-inference-extension (pkg/epp/scheduling/scheduler.go).

The orchestrator `Scheduler.Schedule` is embedded as a pure, fuel-indexed
function.  Plugin calls (`ProfileHandler.Pick`, `SchedulerProfile.Run`,
`ProfileHandler.ProcessResults`) are opaque function fields; in Go they mutate
the per-call cycle state through a pointer, so here every plugin call takes the
cycle state and (where the mutation is still observable afterwards) returns the
updated one.  The Go round loop `for { ... }` has no bound, so the embedding
takes a fuel argument; `none` means the fuel ran out before the loop ended.
Go iterates the picked `map[string]*SchedulerProfile` in an unspecified order;
the order oracle `ord` supplies, per round, the iteration order actually used.
The embedding additionally records a trace of the plugin invocations the
orchestrator performs, with the data each invocation received and returned, so
that claims about "which plugin calls happen" are statable.
-/

namespace GIE

/-- Modelled from the spec: a backend pod, `{name, namespace}` identity plus an
opaque, externally supplied metrics snapshot (`types.Pod` is not part of the
provided source).  The scheduler only reads pods. -/
structure Pod where
  name : String
  ns : String
  metrics : String
deriving DecidableEq, Repr

/-- Modelled from the spec: an immutable request with a correlation id, target
model identity and optional adapter identity (`types.LLMRequest` is not part of
the provided source).  The orchestrator reads only `requestId`. -/
structure LLMRequest where
  requestId : String
  targetModel : String
  adapter : Option String
deriving DecidableEq, Repr

/-- Modelled from the spec: the request-scoped mutable key/value store
(`types.CycleState` is not part of the provided source).  Keys are
plugin-defined strings, values are opaque (modelled as `Nat`). -/
abbrev CycleState := List (String × Nat)

/-- Modelled from the spec: `types.NewCycleState()`, a fresh empty store. -/
def CycleState.new : CycleState := []

/-- Modelled from the spec: read a key of the cycle state. -/
def CycleState.read (k : String) : CycleState → Option Nat
  | [] => none
  | p :: s => if p.1 = k then some p.2 else CycleState.read k s

/-- Modelled from the spec: write a key of the cycle state (overwrite). -/
def CycleState.write (k : String) (v : Nat) : CycleState → CycleState
  | [] => [(k, v)]
  | p :: s => if p.1 = k then (k, v) :: s else p :: CycleState.write k v s

/-- Modelled from the spec: the outcome of one successful profile run — a
selected pod (possibly none) with per-pod scores (`types.ProfileRunResult` is
not part of the provided source).  The orchestrator never inspects it. -/
structure ProfileRunResult where
  targetPod : Option Pod
  scores : List (String × Int)
deriving DecidableEq, Repr

/-- Modelled from the spec: the final decision — a nullable target pod plus an
opaque payload built by the handler (`types.SchedulingResult` is not part of
the provided source).  The orchestrator reads only `targetPod`, and only for
trace-span attributes (non-functional). -/
structure SchedulingResult where
  targetPod : Option Pod
  profileResults : List (String × Option ProfileRunResult)
deriving DecidableEq, Repr

/-- The per-call collection `profileRunResults map[string]*types.ProfileRunResult`
of scheduler.go, as an association list with unique keys (a Go map); an entry
`(name, none)` is a recorded nil result. -/
abbrev ResultsMap := List (String × Option ProfileRunResult)

/-- Modelled from the spec: `framework.SchedulerProfile` (not part of the
provided source) exposes `Run(ctx, request, cycleState, pods)` returning a
nullable result and a nullable error, and may mutate the cycle state. -/
structure SchedulerProfile where
  run : LLMRequest → CycleState → List Pod → (Option ProfileRunResult × Option String) × CycleState

/-- Modelled from the spec: `framework.ProfileHandler` (not part of the
provided source): `Pick` chooses the next wave (a map name → profile, here an
association list in iteration order) and may mutate the cycle state;
`ProcessResults` combines all accumulated results into the final decision
(its cycle-state mutation is unobservable — Schedule returns right after). -/
structure ProfileHandler where
  pick : CycleState → LLMRequest → List (String × SchedulerProfile) → ResultsMap →
      List (String × SchedulerProfile) × CycleState
  processResults : CycleState → LLMRequest → ResultsMap →
      Option SchedulingResult × Option String

/-- The `Scheduler` struct of scheduler.go: a profile handler and the
configured profile map. -/
structure Scheduler where
  profileHandler : ProfileHandler
  profiles : List (String × SchedulerProfile)

/-- One recorded plugin invocation of the orchestrator: which plugin call was
made, with the cycle state it received (`stateIn`), the data it received, and
— for calls whose mutation of the cycle state remains observable — the cycle
state it left behind (`stateOut`). -/
inductive Event where
  | pickEv (stateIn : CycleState) (resultsIn : ResultsMap) (pickedNames : List String)
      (stateOut : CycleState)
  | runEv (profileName : String) (stateIn : CycleState) (pods : List Pod)
      (output : Option ProfileRunResult) (errOut : Option String) (stateOut : CycleState)
  | processEv (stateIn : CycleState) (resultsIn : ResultsMap)
deriving DecidableEq, Repr

/-- Lookup in the results collection (Go map read). -/
def lookupR (k : String) : ResultsMap → Option (Option ProfileRunResult)
  | [] => none
  | p :: r => if p.1 = k then some p.2 else lookupR k r

/-- `upsert r k v` is the Go map assignment `r[k] = v`: overwrite the entry of
key `k` if present, otherwise add it. -/
def upsert : ResultsMap → String → Option ProfileRunResult → ResultsMap
  | [], k, v => [(k, v)]
  | p :: r, k, v => if p.1 = k then (k, v) :: r else p :: upsert r k v

/-- The inner wave loop of scheduler.go
(`for name, profile := range profiles { ... }`): run every selected profile in
iteration order, thread the cycle state through the runs, and store each run's
returned result under its name — unconditionally, also when the run returned an
error (`profileRunResults[name] = profileRunResult`). -/
def runWave (req : LLMRequest) (pods : List Pod) :
    CycleState → ResultsMap → List (String × SchedulerProfile) →
      CycleState × ResultsMap × List Event
  | cs, r, [] => (cs, r, [])
  | cs, r, (nm, p) :: rest =>
    let step := p.run req cs pods
    let tail := runWave req pods step.2 (upsert r nm step.1.1) rest
    (tail.1, tail.2.1, Event.runEv nm cs pods step.1.1 step.1.2 step.2 :: tail.2.2)

/-- The unbounded round loop of `Scheduler.Schedule`, fuel-indexed: each round
calls `Pick`; an empty selection ends the loop, otherwise the selected wave is
run (in the iteration order `ord` supplies for that round) and the loop
recurses on the accumulated results.  `none` means the fuel ran out. -/
def scheduleLoop (s : Scheduler) (req : LLMRequest) (pods : List Pod)
    (ord : Nat → List (String × SchedulerProfile) → List (String × SchedulerProfile)) :
    Nat → CycleState → ResultsMap → Nat → Option (CycleState × ResultsMap × List Event)
  | 0, _, _, _ => none
  | fuel + 1, cs, r, n =>
    let pk := s.profileHandler.pick cs req s.profiles r
    if pk.1.isEmpty then
      some (pk.2, r, [Event.pickEv cs r [] pk.2])
    else
      let w := ord n pk.1
      let wres := runWave req pods pk.2 r w
      match scheduleLoop s req pods ord fuel wres.1 wres.2.1 (n + 1) with
      | none => none
      | some (cs₂, r₂, tr) =>
        some (cs₂, r₂, Event.pickEv cs r (w.map Prod.fst) pk.2 :: (wres.2.2 ++ tr))

/-- Everything a terminated `Schedule` call produced: the returned result and
error, the results collection as it stood when the loop ended, and the trace of
plugin invocations. -/
structure ScheduleOutcome where
  result : Option SchedulingResult
  error : Option String
  finalResults : ResultsMap
  trace : List Event
deriving DecidableEq, Repr

/-- The error scheduler.go builds when no profile ran:
`fmt.Errorf("failed to run any scheduler profile for request %s", request.RequestId)`. -/
def noProfilesRunError (id : String) : String :=
  "failed to run any scheduler profile for request " ++ id

/-- The embedding of `Scheduler.Schedule`: create a fresh cycle state, run the
round loop, and — if the results collection is empty — fail with the
no-profiles-run error, otherwise call `ProcessResults` once and return its
result and error verbatim.  Instrumentation (metrics, logs, spans) of the Go
code is not value-affecting and is not modelled. -/
def Scheduler.scheduleT (s : Scheduler) (req : LLMRequest) (pods : List Pod)
    (ord : Nat → List (String × SchedulerProfile) → List (String × SchedulerProfile))
    (fuel : Nat) : Option ScheduleOutcome :=
  match scheduleLoop s req pods ord fuel CycleState.new [] 0 with
  | none => none
  | some (cs, r, tr) =>
    if r.isEmpty then
      some ⟨none, some (noProfilesRunError req.requestId), r, tr⟩
    else
      let pr := s.profileHandler.processResults cs req r
      some ⟨pr.1, pr.2, r, tr ++ [Event.processEv cs r]⟩

/-- The pair `(result, error)` Go's `Schedule` actually returns. -/
def Scheduler.schedule (s : Scheduler) (req : LLMRequest) (pods : List Pod)
    (ord : Nat → List (String × SchedulerProfile) → List (String × SchedulerProfile))
    (fuel : Nat) : Option (Option SchedulingResult × Option String) :=
  (s.scheduleT req pods ord fuel).map (fun o => (o.result, o.error))

/-- The identity iteration order (one concrete choice of Go map order). -/
def ordId : Nat → List (String × SchedulerProfile) → List (String × SchedulerProfile) :=
  fun _ l => l

/-- Cycle state an event's plugin call received. -/
def Event.stateIn : Event → CycleState
  | .pickEv cs _ _ _ => cs
  | .runEv _ cs _ _ _ _ => cs
  | .processEv cs _ => cs

/-- Cycle state an event's plugin call left behind (for `processEv` the state
it received: `Schedule` returns immediately after, so no later call observes
its mutation). -/
def Event.stateOut : Event → CycleState
  | .pickEv _ _ _ cs => cs
  | .runEv _ _ _ _ _ cs => cs
  | .processEv cs _ => cs

/-- Whether an event is a `ProcessResults` invocation. -/
def Event.isProcess : Event → Bool
  | .processEv _ _ => true
  | _ => false

/-- The `(name, stored result)` pair of a run event. -/
def Event.runPair : Event → Option (String × Option ProfileRunResult)
  | .runEv nm _ _ out _ _ => some (nm, out)
  | _ => none

/-- The candidate-pod list a run event's `Run` received. -/
def Event.runPods : Event → Option (List Pod)
  | .runEv _ _ pods _ _ _ => some pods
  | _ => none

/-- The wave (list of picked profile names, in execution order) of a pick
event. -/
def Event.pickWave : Event → Option (List String)
  | .pickEv _ _ ns _ => some ns
  | _ => none

/-- All `(name, stored result)` pairs of the run events of a trace, in
execution order. -/
def runPairs (t : List Event) : List (String × Option ProfileRunResult) :=
  t.filterMap Event.runPair

/-- All run-event profile names of a trace, in execution order. -/
def runNames (t : List Event) : List String :=
  (runPairs t).map Prod.fst

/-- All pick-event waves of a trace, in order. -/
def pickWaves (t : List Event) : List (List String) :=
  t.filterMap Event.pickWave

/-- Number of `ProcessResults` invocations in a trace. -/
def processCount (t : List Event) : Nat :=
  (t.filter Event.isProcess).length

/-- `chainFrom s t` holds when the first event of `t` received exactly the
cycle state `s` and every later event received exactly the state the previous
event left behind: the one per-call cycle state is threaded through every
plugin invocation, never replaced. -/
def chainFrom : CycleState → List Event → Bool
  | _, [] => true
  | s, e :: rest => decide (e.stateIn = s) && chainFrom e.stateOut rest

/-- The cycle state left behind by the last event of `t` (or `s` if none). -/
def endState (s : CycleState) (t : List Event) : CycleState :=
  t.foldl (fun _ e => e.stateOut) s

/-- First-biased choice on `Option`. -/
def firstSome {α : Type} : Option α → Option α → Option α
  | some o, _ => some o
  | none, b => b

/-- Result of the last run of profile `k` among the pairs `ps`, if any. -/
def lastOut (k : String) : List (String × Option ProfileRunResult) → Option (Option ProfileRunResult)
  | [] => none
  | p :: ps => firstSome (lastOut k ps) (if p.1 = k then some p.2 else none)

/-- Fold a list of `(name, result)` pairs into a results map by repeated Go
map assignment. -/
def applyPairs (r : ResultsMap) (ps : List (String × Option ProfileRunResult)) : ResultsMap :=
  ps.foldl (fun acc p => upsert acc p.1 p.2) r

/-- The keys of a results map are pairwise distinct (always true of a Go
map). -/
def nodupKeys (r : ResultsMap) : Prop :=
  (r.map Prod.fst).Nodup

/-- A snapshot per `Pick`/`ProcessResults` invocation of a trace: the
`(name, result)` pairs of the runs executed since the previous snapshot,
paired with the results collection that invocation received. -/
def snapshotsAux : List (String × Option ProfileRunResult) → List Event →
    List (List (String × Option ProfileRunResult) × ResultsMap)
  | _, [] => []
  | pend, Event.pickEv _ r _ _ :: rest => (pend, r) :: snapshotsAux [] rest
  | pend, Event.runEv nm _ _ out _ _ :: rest => snapshotsAux (pend ++ [(nm, out)]) rest
  | pend, Event.processEv _ r :: rest => (pend, r) :: snapshotsAux [] rest

/-- The snapshots of a trace, starting with no pending runs. -/
def snapshots (t : List Event) : List (List (String × Option ProfileRunResult) × ResultsMap) :=
  snapshotsAux [] t

/-- The pending run pairs left after walking a trace past its last
snapshot event. -/
def pendAfter (pend : List (String × Option ProfileRunResult)) (t : List Event) :
    List (String × Option ProfileRunResult) :=
  t.foldl (fun acc e =>
    match e with
    | Event.runEv nm _ _ out _ _ => acc ++ [(nm, out)]
    | _ => []) pend

/-- Relation between two consecutive snapshots: each entry of the later
results collection is the last result stored for that name since the earlier
snapshot, or — when the name was not run in between — the unchanged earlier
entry. -/
def segStep (a b : List (String × Option ProfileRunResult) × ResultsMap) : Prop :=
  ∀ k, lookupR k b.2 = firstSome (lastOut k b.1) (lookupR k a.2)

/-- The (name, returned error) pairs of the run events of a trace, in
execution order. -/
def runErrs (t : List Event) : List (String × Option String) :=
  t.filterMap (fun e =>
    match e with
    | Event.runEv nm _ _ _ eo _ => some (nm, eo)
    | _ => none)

/-- Extract the outcome of a `scheduleT` call known to have terminated. -/
def outOf (x : Option ScheduleOutcome) : ScheduleOutcome :=
  x.getD ⟨none, none, [], []⟩

/-- Relation used to compare the loop states of two executions that differ
only in the intra-wave iteration order: both diverge, or both terminate with
the same cycle state and results collections that are permutations of each
other (with pairwise-distinct keys). -/
def loopRel : Option (CycleState × ResultsMap × List Event) →
    Option (CycleState × ResultsMap × List Event) → Prop
  | none, none => True
  | some a, some b => a.1 = b.1 ∧ a.2.1.Perm b.2.1 ∧ nodupKeys a.2.1
  | _, _ => False

/-- A concrete pod for the example schedulers. -/
def podA : Pod := ⟨"pod-a", "default", "snap"⟩

/-- A concrete request for the example schedulers. -/
def reqA : LLMRequest := ⟨"req-1", "model-1", none⟩

/-- A concrete profile-run result selecting `podA`. -/
def prA : ProfileRunResult := ⟨some podA, []⟩

/-- Profile whose run succeeds with `prA` and leaves the cycle state alone. -/
def okProfile : SchedulerProfile := ⟨fun _ cs _ => ((some prA, none), cs)⟩

/-- Profile whose run fails and returns a nil result. -/
def nilFailProfile : SchedulerProfile := ⟨fun _ cs _ => ((none, some "run failed"), cs)⟩

/-- Profile whose run fails but still returns the non-nil result `prA`. -/
def partialFailProfile : SchedulerProfile :=
  ⟨fun _ cs _ => ((some prA, some "run failed"), cs)⟩

/-- Handler that picks the given wave exactly once (as long as no results have
been recorded) and aggregates with the given `ProcessResults`. -/
def oncePickHandler (ps : List (String × SchedulerProfile))
    (proc : CycleState → LLMRequest → ResultsMap → Option SchedulingResult × Option String) :
    ProfileHandler :=
  ⟨fun cs _ _ r => (if r.isEmpty then ps else [], cs), proc⟩

/-- Aggregation that selects the pod recorded under profile name "p1". -/
def procFirst : CycleState → LLMRequest → ResultsMap → Option SchedulingResult × Option String :=
  fun _ _ r =>
    (some ⟨(match lookupR "p1" r with
            | some (some pr) => pr.targetPod
            | _ => none), r⟩, none)

/-- Scheduler whose profile "p1" fails while returning a non-nil result. -/
def schedC1 : Scheduler :=
  ⟨oncePickHandler [("p1", partialFailProfile), ("p2", okProfile)] procFirst,
   [("p1", partialFailProfile), ("p2", okProfile)]⟩

/-- Scheduler whose handler never picks anything. -/
def schedEmpty : Scheduler := ⟨⟨fun cs _ _ _ => ([], cs), fun _ _ _ => (none, none)⟩, []⟩

/-- Scheduler running one successful profile once. -/
def schedOnce : Scheduler :=
  ⟨oncePickHandler [("p1", okProfile)] procFirst, [("p1", okProfile)]⟩

/-- Scheduler running "p1" (failing with a nil result) and "p2" (succeeding)
in one wave, then "p1" again in a second wave. -/
def twoRoundHandler : ProfileHandler :=
  ⟨fun cs _ _ r =>
    (if r.isEmpty then [("p1", nilFailProfile), ("p2", okProfile)]
     else if lookupR "p1" r = some none then [("p1", okProfile)]
     else [], cs),
   procFirst⟩

/-- Scheduler for the two-round example. -/
def schedTwoRound : Scheduler :=
  ⟨twoRoundHandler, [("p1", nilFailProfile), ("p2", okProfile)]⟩

/-- Scheduler whose aggregation returns a non-nil result together with a
non-nil error. -/
def schedC4 : Scheduler :=
  ⟨oncePickHandler [("p1", okProfile)] (fun _ _ r => (some ⟨some podA, r⟩, some "partial")),
   [("p1", okProfile)]⟩

/-- Profile that always runs (used to exhibit the unbounded loop). -/
def alwaysProfile : SchedulerProfile := ⟨fun _ cs _ => ((none, none), cs)⟩

/-- Handler that picks `alwaysProfile` on every round. -/
def alwaysHandler : ProfileHandler :=
  ⟨fun cs _ _ _ => ([("p", alwaysProfile)], cs), fun _ _ _ => (none, none)⟩

/-- Scheduler whose round loop never ends. -/
def alwaysScheduler : Scheduler := ⟨alwaysHandler, [("p", alwaysProfile)]⟩

/-- Profile that writes the cycle-state flag read by `readProfile`. -/
def flagProfile : SchedulerProfile :=
  ⟨fun _ cs _ => ((some prA, none), CycleState.write "flag" 1 cs)⟩

/-- Profile whose result depends on the cycle-state flag. -/
def readProfile : SchedulerProfile :=
  ⟨fun _ cs _ =>
    ((some ⟨if CycleState.read "flag" cs = some 1 then some podA else none, []⟩, none), cs)⟩

/-- Handler running `flagProfile` and `readProfile` in one wave and reporting
the pod chosen by "pB". -/
def handlerC8 : ProfileHandler :=
  ⟨fun cs _ _ r => (if r.isEmpty then [("pA", flagProfile), ("pB", readProfile)] else [], cs),
   fun _ _ r =>
    ((match lookupR "pB" r with
      | some (some pr) => some ⟨pr.targetPod, r⟩
      | _ => some ⟨none, r⟩), none)⟩

/-- Scheduler whose outcome depends on the intra-wave iteration order. -/
def schedC8 : Scheduler := ⟨handlerC8, [("pA", flagProfile), ("pB", readProfile)]⟩

/-- The reversed iteration order (another legal Go map order). -/
def ordRev : Nat → List (String × SchedulerProfile) → List (String × SchedulerProfile) :=
  fun _ l => l.reverse

/-- Handler that picks `okProfile` once, tracking progress in the cycle state
only, and aggregates without looking at the results collection. -/
def inertHandler : ProfileHandler :=
  ⟨fun cs _ _ _ =>
    (if CycleState.read "done" cs = some 1 then [] else [("p", okProfile)],
     CycleState.write "done" 1 cs),
   fun _ _ _ => (some ⟨some podA, []⟩, none)⟩

/-- Scheduler satisfying the provisos of the amended determinism claim. -/
def schedInert : Scheduler := ⟨inertHandler, [("p", okProfile)]⟩

theorem firstSome_none_right {α : Type} (a : Option α) : firstSome a none = a := by
  cases a <;> rfl

theorem firstSome_assoc {α : Type} (a b c : Option α) :
    firstSome (firstSome a b) c = firstSome a (firstSome b c) := by
  cases a <;> cases b <;> rfl

theorem lookupR_upsert (r : ResultsMap) (k j : String) (v : Option ProfileRunResult) :
    lookupR k (upsert r j v) = if j = k then some v else lookupR k r := by
  induction r with
  | nil => simp [upsert, lookupR]
  | cons p r ih =>
    by_cases hp : p.1 = j <;> by_cases hk : j = k <;>
      simp_all [upsert, lookupR]

theorem lastOut_append (k : String) (xs ys : List (String × Option ProfileRunResult)) :
    lastOut k (xs ++ ys) = firstSome (lastOut k ys) (lastOut k xs) := by
  induction xs with
  | nil => simp [lastOut, firstSome_none_right]
  | cons p xs ih =>
    simp only [List.cons_append, lastOut, List.append_eq, ih, firstSome_assoc]

theorem lookupR_applyPairs (ps : List (String × Option ProfileRunResult)) :
    ∀ (r : ResultsMap) (k : String),
      lookupR k (applyPairs r ps) = firstSome (lastOut k ps) (lookupR k r) := by
  induction ps with
  | nil => intro r k; simp [applyPairs, lastOut, firstSome]
  | cons p ps ih =>
    intro r k
    have h1 : applyPairs r (p :: ps) = applyPairs (upsert r p.1 p.2) ps := rfl
    rw [h1, ih, lookupR_upsert]
    simp only [lastOut, firstSome_assoc]
    by_cases h : p.1 = k <;> cases hl : lastOut k ps <;> simp [h, firstSome]

theorem runWave_results (req : LLMRequest) (pods : List Pod) :
    ∀ (w : List (String × SchedulerProfile)) (cs : CycleState) (r : ResultsMap),
      (runWave req pods cs r w).2.1 = applyPairs r (runPairs (runWave req pods cs r w).2.2) := by
  intro w
  induction w with
  | nil => intro cs r; rfl
  | cons np w ih =>
    intro cs r
    simp only [runWave, runPairs, List.filterMap_cons, Event.runPair]
    exact ih _ _

theorem runWave_runNames (req : LLMRequest) (pods : List Pod) :
    ∀ (w : List (String × SchedulerProfile)) (cs : CycleState) (r : ResultsMap),
      runNames (runWave req pods cs r w).2.2 = w.map Prod.fst := by
  intro w
  induction w with
  | nil => intro cs r; simp [runWave, runNames, runPairs]
  | cons np w ih =>
    intro cs r
    simp only [runWave, runNames, runPairs, List.filterMap_cons, Event.runPair,
      List.map_cons, List.cons.injEq, true_and]
    exact ih _ _

theorem runWave_noSnapshotEv (req : LLMRequest) (pods : List Pod) :
    ∀ (w : List (String × SchedulerProfile)) (cs : CycleState) (r : ResultsMap),
      ∀ e ∈ (runWave req pods cs r w).2.2, ∃ nm s₁ out errO s₂,
        e = Event.runEv nm s₁ pods out errO s₂ := by
  intro w
  induction w with
  | nil => intro cs r e he; simp [runWave] at he
  | cons np w ih =>
    intro cs r e he
    simp only [runWave, List.mem_cons] at he
    rcases he with he | he
    · exact ⟨np.1, cs, _, _, _, he⟩
    · exact ih _ _ e he

theorem runWave_chain (req : LLMRequest) (pods : List Pod) :
    ∀ (w : List (String × SchedulerProfile)) (cs : CycleState) (r : ResultsMap),
      chainFrom cs (runWave req pods cs r w).2.2 = true ∧
        endState cs (runWave req pods cs r w).2.2 = (runWave req pods cs r w).1 := by
  intro w
  induction w with
  | nil => intro cs r; simp [runWave, chainFrom, endState]
  | cons np w ih =>
    intro cs r
    refine ⟨?_, ?_⟩
    · simp only [runWave, chainFrom, Event.stateIn, Event.stateOut, Bool.and_eq_true,
        decide_eq_true_eq]
      exact ⟨trivial, (ih _ _).1⟩
    · simp only [runWave, endState, List.foldl_cons, Event.stateOut]
      exact (ih _ _).2

theorem pendAfter_append (p : List (String × Option ProfileRunResult)) (t₁ t₂ : List Event) :
    pendAfter p (t₁ ++ t₂) = pendAfter (pendAfter p t₁) t₂ := by
  simp [pendAfter, List.foldl_append]

theorem pendAfter_cons_pick (p : List (String × Option ProfileRunResult)) (cs : CycleState)
    (r : ResultsMap) (ns : List String) (cs' : CycleState) (t : List Event) :
    pendAfter p (Event.pickEv cs r ns cs' :: t) = pendAfter [] t := rfl

theorem pendAfter_cons_proc (p : List (String × Option ProfileRunResult)) (cs : CycleState)
    (r : ResultsMap) (t : List Event) :
    pendAfter p (Event.processEv cs r :: t) = pendAfter [] t := rfl

theorem pendAfter_cons_run (p : List (String × Option ProfileRunResult)) (nm : String)
    (cs : CycleState) (pods : List Pod) (out : Option ProfileRunResult) (eo : Option String)
    (cs' : CycleState) (t : List Event) :
    pendAfter p (Event.runEv nm cs pods out eo cs' :: t) = pendAfter (p ++ [(nm, out)]) t := rfl

theorem snapshotsAux_append (t₁ : List Event) :
    ∀ (pend : List (String × Option ProfileRunResult)) (t₂ : List Event),
      snapshotsAux pend (t₁ ++ t₂) =
        snapshotsAux pend t₁ ++ snapshotsAux (pendAfter pend t₁) t₂ := by
  induction t₁ with
  | nil => intro pend t₂; simp [snapshotsAux, pendAfter]
  | cons e t₁ ih =>
    intro pend t₂
    cases e <;>
      simp only [List.cons_append, snapshotsAux, List.append_eq, pendAfter_cons_pick,
        pendAfter_cons_proc, pendAfter_cons_run, ih]

theorem runWave_snapshotsAux (req : LLMRequest) (pods : List Pod) :
    ∀ (w : List (String × SchedulerProfile)) (cs : CycleState) (r : ResultsMap)
      (pend : List (String × Option ProfileRunResult)),
      snapshotsAux pend (runWave req pods cs r w).2.2 = [] := by
  intro w
  induction w with
  | nil => intro cs r pend; rfl
  | cons np w ih =>
    intro cs r pend
    simp only [runWave, snapshotsAux]
    exact ih _ _ _

theorem runWave_pendAfter (req : LLMRequest) (pods : List Pod) :
    ∀ (w : List (String × SchedulerProfile)) (cs : CycleState) (r : ResultsMap)
      (pend : List (String × Option ProfileRunResult)),
      pendAfter pend (runWave req pods cs r w).2.2 =
        pend ++ runPairs (runWave req pods cs r w).2.2 := by
  intro w
  induction w with
  | nil => intro cs r pend; simp [runWave, pendAfter, runPairs]
  | cons np w ih =>
    intro cs r pend
    simp only [runWave, pendAfter, List.foldl_cons, runPairs, List.filterMap_cons,
      Event.runPair]
    rw [← pendAfter, ih]
    simp [runPairs]

theorem snapshotsAux_shift (t : List Event) :
    ∀ pend, snapshotsAux pend t =
      (match snapshotsAux [] t with
       | [] => []
       | q :: tl => (pend ++ q.1, q.2) :: tl) := by
  induction t with
  | nil => intro pend; rfl
  | cons e t ih =>
    intro pend
    cases e with
    | pickEv cs r ns cs' => simp [snapshotsAux]
    | processEv cs r => simp [snapshotsAux]
    | runEv nm cs pods out errO cs' =>
      simp only [snapshotsAux]
      rw [ih (pend ++ [(nm, out)]), ih ([] ++ [(nm, out)])]
      cases snapshotsAux [] t <;> simp

theorem loop_results (s : Scheduler) (req : LLMRequest) (pods : List Pod)
    (ord : Nat → List (String × SchedulerProfile) → List (String × SchedulerProfile)) :
    ∀ (fuel : Nat) (cs : CycleState) (r : ResultsMap) (n : Nat)
      (cs' : CycleState) (r' : ResultsMap) (tr : List Event),
      scheduleLoop s req pods ord fuel cs r n = some (cs', r', tr) →
      ∀ k, lookupR k r' = firstSome (lastOut k (runPairs tr)) (lookupR k r) := by
  intro fuel
  induction fuel with
  | zero =>
    intro cs r n cs' r' tr h
    simp [scheduleLoop] at h
  | succ fuel ih =>
    intro cs r n cs' r' tr h k
    simp only [scheduleLoop] at h
    split at h
    · simp only [Option.some.injEq, Prod.mk.injEq] at h
      obtain ⟨-, h2, h3⟩ := h
      subst h2; subst h3
      simp [runPairs, Event.runPair, lastOut, firstSome]
    · split at h
      · exact absurd h (by simp)
      · rename_i cs₂ r₂ tr₂ heq
        simp only [Option.some.injEq, Prod.mk.injEq] at h
        obtain ⟨h1, h2, h3⟩ := h
        subst h1; subst h2; subst h3
        have hih := ih _ _ _ _ _ _ heq k
        rw [hih, runWave_results req pods _ _ _, lookupR_applyPairs]
        simp only [runPairs, List.filterMap_cons, Event.runPair, List.filterMap_append]
        rw [lastOut_append, firstSome_assoc]

@[simp]
theorem pickWaves_nil : pickWaves [] = [] := rfl

@[simp]
theorem pickWaves_cons_pick (cs : CycleState) (r : ResultsMap) (ns : List String)
    (cs' : CycleState) (t : List Event) :
    pickWaves (Event.pickEv cs r ns cs' :: t) = ns :: pickWaves t := by
  simp [pickWaves, Event.pickWave]

@[simp]
theorem pickWaves_cons_run (nm : String) (cs : CycleState) (pods : List Pod)
    (out : Option ProfileRunResult) (eo : Option String) (cs' : CycleState) (t : List Event) :
    pickWaves (Event.runEv nm cs pods out eo cs' :: t) = pickWaves t := by
  simp [pickWaves, Event.pickWave]

@[simp]
theorem pickWaves_cons_proc (cs : CycleState) (r : ResultsMap) (t : List Event) :
    pickWaves (Event.processEv cs r :: t) = pickWaves t := by
  simp [pickWaves, Event.pickWave]

@[simp]
theorem pickWaves_append (t₁ t₂ : List Event) :
    pickWaves (t₁ ++ t₂) = pickWaves t₁ ++ pickWaves t₂ := by
  simp [pickWaves]

@[simp]
theorem runPairs_nil : runPairs [] = [] := rfl

@[simp]
theorem runPairs_cons_pick (cs : CycleState) (r : ResultsMap) (ns : List String)
    (cs' : CycleState) (t : List Event) :
    runPairs (Event.pickEv cs r ns cs' :: t) = runPairs t := by
  simp [runPairs, Event.runPair]

@[simp]
theorem runPairs_cons_run (nm : String) (cs : CycleState) (pods : List Pod)
    (out : Option ProfileRunResult) (eo : Option String) (cs' : CycleState) (t : List Event) :
    runPairs (Event.runEv nm cs pods out eo cs' :: t) = (nm, out) :: runPairs t := by
  simp [runPairs, Event.runPair]

@[simp]
theorem runPairs_cons_proc (cs : CycleState) (r : ResultsMap) (t : List Event) :
    runPairs (Event.processEv cs r :: t) = runPairs t := by
  simp [runPairs, Event.runPair]

@[simp]
theorem runPairs_append (t₁ t₂ : List Event) :
    runPairs (t₁ ++ t₂) = runPairs t₁ ++ runPairs t₂ := by
  simp [runPairs]

@[simp]
theorem runWave_pickWaves (req : LLMRequest) (pods : List Pod) :
    ∀ (w : List (String × SchedulerProfile)) (cs : CycleState) (r : ResultsMap),
      pickWaves (runWave req pods cs r w).2.2 = [] := by
  intro w
  induction w with
  | nil => intro cs r; rfl
  | cons np w ih =>
    intro cs r
    simp only [runWave, pickWaves_cons_run]
    exact ih _ _

theorem loop_shape (s : Scheduler) (req : LLMRequest) (pods : List Pod)
    (ord : Nat → List (String × SchedulerProfile) → List (String × SchedulerProfile))
    (hord : ∀ n l, (ord n l).Perm l) :
    ∀ (fuel : Nat) (cs : CycleState) (r : ResultsMap) (n : Nat)
      (cs' : CycleState) (r' : ResultsMap) (tr : List Event),
      scheduleLoop s req pods ord fuel cs r n = some (cs', r', tr) →
      runNames tr = (pickWaves tr).flatten
      ∧ pickWaves tr ≠ []
      ∧ (pickWaves tr).getLast? = some []
      ∧ [] ∉ (pickWaves tr).dropLast
      ∧ (∀ e ∈ tr, e.isProcess = false)
      ∧ (∀ e ∈ tr, e.runPods = none ∨ e.runPods = some pods)
      ∧ (∀ x, pendAfter x tr = []) := by
  intro fuel
  induction fuel with
  | zero =>
    intro cs r n cs' r' tr h
    simp [scheduleLoop] at h
  | succ fuel ih =>
    intro cs r n cs' r' tr h
    simp only [scheduleLoop] at h
    split at h
    · simp only [Option.some.injEq, Prod.mk.injEq] at h
      obtain ⟨-, -, h3⟩ := h
      subst h3
      refine ⟨rfl, by simp, by simp, by simp, ?_, ?_, fun x => rfl⟩
      · intro e he
        simp only [List.mem_singleton] at he
        subst he; rfl
      · intro e he
        simp only [List.mem_singleton] at he
        subst he; exact Or.inl rfl
    · rename_i hcond
      split at h
      · exact absurd h (by simp)
      · rename_i cs₂ r₂ tr₂ heq
        simp only [Option.some.injEq, Prod.mk.injEq] at h
        obtain ⟨-, -, h3⟩ := h
        subst h3
        obtain ⟨ihNames, ihNe, ihLast, ihDrop, ihProc, ihPods, ihPend⟩ :=
          ih _ _ _ _ _ _ heq
        have hpkne : (s.profileHandler.pick cs req s.profiles r).1 ≠ [] := by
          intro hnil
          rw [hnil] at hcond
          exact hcond rfl
        have hwne : ord n (s.profileHandler.pick cs req s.profiles r).1 ≠ [] := by
          intro hnil
          apply hpkne
          have hp := hord n (s.profileHandler.pick cs req s.profiles r).1
          rw [hnil] at hp
          exact hp.symm.eq_nil
        have hwnamesne :
            (ord n (s.profileHandler.pick cs req s.profiles r).1).map Prod.fst ≠ [] := by
          simpa using hwne
        obtain ⟨b, l', hb⟩ := List.exists_cons_of_ne_nil ihNe
        refine ⟨?_, by simp, ?_, ?_, ?_, ?_, ?_⟩
        · simp only [runNames, runPairs_cons_pick, runPairs_append, pickWaves_cons_pick,
            pickWaves_append, runWave_pickWaves, List.nil_append, List.map_append]
          rw [← runNames, ← runNames, runWave_runNames, ihNames]
          simp
        · simp only [pickWaves_cons_pick, pickWaves_append, runWave_pickWaves,
            List.nil_append, hb]
          rw [List.getLast?_cons_cons]
          rw [hb] at ihLast
          exact ihLast
        · simp only [pickWaves_cons_pick, pickWaves_append, runWave_pickWaves,
            List.nil_append, hb, List.dropLast_cons₂, List.mem_cons]
          rw [hb] at ihDrop
          rintro (habs | habs)
          · exact hwnamesne habs.symm
          · exact ihDrop (by simpa [hb] using habs)
        · intro e he
          simp only [List.mem_cons, List.mem_append] at he
          rcases he with he | he | he
          · subst he; rfl
          · obtain ⟨nm, s₁, out, errO, s₂, he'⟩ :=
              runWave_noSnapshotEv req pods _ _ _ e he
            subst he'; rfl
          · exact ihProc e he
        · intro e he
          simp only [List.mem_cons, List.mem_append] at he
          rcases he with he | he | he
          · subst he; exact Or.inl rfl
          · obtain ⟨nm, s₁, out, errO, s₂, he'⟩ :=
              runWave_noSnapshotEv req pods _ _ _ e he
            subst he'; exact Or.inr rfl
          · exact ihPods e he
        · intro x
          rw [pendAfter_cons_pick, pendAfter_append, runWave_pendAfter]
          exact ihPend _

theorem endState_append (s : CycleState) (t₁ t₂ : List Event) :
    endState s (t₁ ++ t₂) = endState (endState s t₁) t₂ := by
  simp [endState, List.foldl_append]

theorem chainFrom_append (t₁ : List Event) :
    ∀ (s : CycleState) (t₂ : List Event),
      chainFrom s (t₁ ++ t₂) = (chainFrom s t₁ && chainFrom (endState s t₁) t₂) := by
  induction t₁ with
  | nil => intro s t₂; simp [chainFrom, endState]
  | cons e t₁ ih =>
    intro s t₂
    simp only [List.cons_append, chainFrom, List.append_eq, ih, Bool.and_assoc]
    have he : endState s (e :: t₁) = endState e.stateOut t₁ := rfl
    rw [he]

theorem loop_chain (s : Scheduler) (req : LLMRequest) (pods : List Pod)
    (ord : Nat → List (String × SchedulerProfile) → List (String × SchedulerProfile)) :
    ∀ (fuel : Nat) (cs : CycleState) (r : ResultsMap) (n : Nat)
      (cs' : CycleState) (r' : ResultsMap) (tr : List Event),
      scheduleLoop s req pods ord fuel cs r n = some (cs', r', tr) →
      chainFrom cs tr = true ∧ endState cs tr = cs' := by
  intro fuel
  induction fuel with
  | zero =>
    intro cs r n cs' r' tr h
    simp [scheduleLoop] at h
  | succ fuel ih =>
    intro cs r n cs' r' tr h
    simp only [scheduleLoop] at h
    split at h
    · simp only [Option.some.injEq, Prod.mk.injEq] at h
      obtain ⟨h1, -, h3⟩ := h
      subst h1; subst h3
      exact ⟨by simp [chainFrom, Event.stateIn], rfl⟩
    · split at h
      · exact absurd h (by simp)
      · rename_i cs₂ r₂ tr₂ heq
        simp only [Option.some.injEq, Prod.mk.injEq] at h
        obtain ⟨h1, -, h3⟩ := h
        subst h1; subst h3
        obtain ⟨ihChain, ihEnd⟩ := ih _ _ _ _ _ _ heq
        have hwc := runWave_chain req pods
          (ord n (s.profileHandler.pick cs req s.profiles r).1)
          (s.profileHandler.pick cs req s.profiles r).2 r
        constructor
        · simp only [chainFrom, Event.stateIn, Event.stateOut, chainFrom_append,
            decide_eq_true_eq, Bool.and_eq_true]
          exact ⟨by trivial, hwc.1, by rw [hwc.2]; exact ihChain⟩
        · have he : endState cs (Event.pickEv cs r
              ((ord n (s.profileHandler.pick cs req s.profiles r).1).map Prod.fst)
              (s.profileHandler.pick cs req s.profiles r).2 ::
              ((runWave req pods (s.profileHandler.pick cs req s.profiles r).2 r
                (ord n (s.profileHandler.pick cs req s.profiles r).1)).2.2 ++ tr₂)) =
              endState (endState (s.profileHandler.pick cs req s.profiles r).2
                (runWave req pods (s.profileHandler.pick cs req s.profiles r).2 r
                  (ord n (s.profileHandler.pick cs req s.profiles r).1)).2.2) tr₂ := by
            rw [← endState_append]
            rfl
          rw [he, hwc.2]
          exact ihEnd

theorem loop_snapshots (s : Scheduler) (req : LLMRequest) (pods : List Pod)
    (ord : Nat → List (String × SchedulerProfile) → List (String × SchedulerProfile)) :
    ∀ (fuel : Nat) (cs : CycleState) (r : ResultsMap) (n : Nat)
      (cs' : CycleState) (r' : ResultsMap) (tr : List Event),
      scheduleLoop s req pods ord fuel cs r n = some (cs', r', tr) →
      (∃ tl, snapshots tr = ([], r) :: tl)
      ∧ (snapshots tr).getLast?.map Prod.snd = some r'
      ∧ List.Chain' segStep (snapshots tr) := by
  intro fuel
  induction fuel with
  | zero =>
    intro cs r n cs' r' tr h
    simp [scheduleLoop] at h
  | succ fuel ih =>
    intro cs r n cs' r' tr h
    simp only [scheduleLoop] at h
    split at h
    · simp only [Option.some.injEq, Prod.mk.injEq] at h
      obtain ⟨-, h2, h3⟩ := h
      subst h2; subst h3
      refine ⟨⟨[], rfl⟩, rfl, ?_⟩
      exact List.chain'_singleton _
    · split at h
      · exact absurd h (by simp)
      · rename_i cs₂ r₂ tr₂ heq
        simp only [Option.some.injEq, Prod.mk.injEq] at h
        obtain ⟨-, h2, h3⟩ := h
        subst h2; subst h3
        obtain ⟨⟨tl₂, ihHead⟩, ihLast, ihChain⟩ := ih _ _ _ _ _ _ heq
        have hsnap : snapshots (Event.pickEv cs r
            ((ord n (s.profileHandler.pick cs req s.profiles r).1).map Prod.fst)
            (s.profileHandler.pick cs req s.profiles r).2 ::
            ((runWave req pods (s.profileHandler.pick cs req s.profiles r).2 r
              (ord n (s.profileHandler.pick cs req s.profiles r).1)).2.2 ++ tr₂)) =
            ([], r) :: (runPairs (runWave req pods
              (s.profileHandler.pick cs req s.profiles r).2 r
              (ord n (s.profileHandler.pick cs req s.profiles r).1)).2.2,
              (runWave req pods (s.profileHandler.pick cs req s.profiles r).2 r
                (ord n (s.profileHandler.pick cs req s.profiles r).1)).2.1) :: tl₂ := by
          show (([], r) :: snapshotsAux []
              ((runWave req pods (s.profileHandler.pick cs req s.profiles r).2 r
                (ord n (s.profileHandler.pick cs req s.profiles r).1)).2.2 ++ tr₂)) = _
          rw [snapshotsAux_append, runWave_snapshotsAux, runWave_pendAfter,
            List.nil_append, List.nil_append, snapshotsAux_shift]
          rw [show snapshotsAux [] tr₂ = snapshots tr₂ from rfl, ihHead]
          simp
        rw [hsnap]
        refine ⟨⟨_, rfl⟩, ?_, ?_⟩
        · cases tl₂ with
          | nil =>
            simp only [ihHead, List.getLast?_singleton] at ihLast
            simpa using ihLast
          | cons c tl₃ =>
            rw [List.getLast?_cons_cons, List.getLast?_cons_cons]
            rw [ihHead, List.getLast?_cons_cons] at ihLast
            exact ihLast
        · rw [ihHead] at ihChain
          have hstep : segStep ([], r)
              (runPairs (runWave req pods (s.profileHandler.pick cs req s.profiles r).2 r
                (ord n (s.profileHandler.pick cs req s.profiles r).1)).2.2,
               (runWave req pods (s.profileHandler.pick cs req s.profiles r).2 r
                (ord n (s.profileHandler.pick cs req s.profiles r).1)).2.1) := by
            intro k
            simp only
            rw [runWave_results req pods _ _ _, lookupR_applyPairs]
          cases tl₂ with
          | nil =>
            exact List.chain'_cons.mpr ⟨hstep, List.chain'_singleton _⟩
          | cons c tl₃ =>
            have hc := List.chain'_cons.mp ihChain
            exact List.chain'_cons.mpr ⟨hstep, List.chain'_cons.mpr ⟨hc.1, hc.2⟩⟩

theorem loop_basic (s : Scheduler) (req : LLMRequest) (pods : List Pod)
    (ord : Nat → List (String × SchedulerProfile) → List (String × SchedulerProfile)) :
    ∀ (fuel : Nat) (cs : CycleState) (r : ResultsMap) (n : Nat)
      (cs' : CycleState) (r' : ResultsMap) (tr : List Event),
      scheduleLoop s req pods ord fuel cs r n = some (cs', r', tr) →
      (∀ e ∈ tr, e.isProcess = false)
      ∧ (∀ e ∈ tr, e.runPods = none ∨ e.runPods = some pods)
      ∧ (∀ x, pendAfter x tr = []) := by
  intro fuel
  induction fuel with
  | zero =>
    intro cs r n cs' r' tr h
    simp [scheduleLoop] at h
  | succ fuel ih =>
    intro cs r n cs' r' tr h
    simp only [scheduleLoop] at h
    split at h
    · simp only [Option.some.injEq, Prod.mk.injEq] at h
      obtain ⟨-, -, h3⟩ := h
      subst h3
      refine ⟨?_, ?_, fun x => rfl⟩
      · intro e he
        simp only [List.mem_singleton] at he
        subst he; rfl
      · intro e he
        simp only [List.mem_singleton] at he
        subst he; exact Or.inl rfl
    · split at h
      · exact absurd h (by simp)
      · rename_i cs₂ r₂ tr₂ heq
        simp only [Option.some.injEq, Prod.mk.injEq] at h
        obtain ⟨-, -, h3⟩ := h
        subst h3
        obtain ⟨ihProc, ihPods, ihPend⟩ := ih _ _ _ _ _ _ heq
        refine ⟨?_, ?_, ?_⟩
        · intro e he
          simp only [List.mem_cons, List.mem_append] at he
          rcases he with he | he | he
          · subst he; rfl
          · obtain ⟨nm, s₁, out, errO, s₂, he'⟩ :=
              runWave_noSnapshotEv req pods _ _ _ e he
            subst he'; rfl
          · exact ihProc e he
        · intro e he
          simp only [List.mem_cons, List.mem_append] at he
          rcases he with he | he | he
          · subst he; exact Or.inl rfl
          · obtain ⟨nm, s₁, out, errO, s₂, he'⟩ :=
              runWave_noSnapshotEv req pods _ _ _ e he
            subst he'; exact Or.inr rfl
          · exact ihPods e he
        · intro x
          rw [pendAfter_cons_pick, pendAfter_append, runWave_pendAfter]
          exact ihPend _

theorem alwaysLoop_none (req : LLMRequest) (pods : List Pod) :
    ∀ (fuel : Nat) (cs : CycleState) (r : ResultsMap) (n : Nat),
      scheduleLoop alwaysScheduler req pods ordId fuel cs r n = none := by
  intro fuel
  induction fuel with
  | zero => intro cs r n; rfl
  | succ fuel ih =>
    intro cs r n
    simp only [scheduleLoop]
    rw [show (alwaysScheduler.profileHandler.pick cs req alwaysScheduler.profiles r) =
      ([("p", alwaysProfile)], cs) from rfl]
    simp only [List.isEmpty_cons, if_false, Bool.false_eq_true, ite_false]
    rw [ih]

theorem lastOut_isSome_of_mem (k : String) :
    ∀ ps : List (String × Option ProfileRunResult),
      k ∈ ps.map Prod.fst → (lastOut k ps).isSome = true := by
  intro ps
  induction ps with
  | nil => intro h; simp at h
  | cons p ps ih =>
    intro h
    simp only [List.map_cons, List.mem_cons] at h
    simp only [lastOut]
    cases hl : lastOut k ps with
    | some o => rfl
    | none =>
      rcases h with h | h
      · simp [firstSome, h]
      · have hih := ih h
        rw [hl] at hih
        simp at hih

/-- C2: if the handler's Pick returns an empty selection on its very first
invocation, Schedule returns the no-profiles-run error carrying the request's
correlation id, no profile's Run is ever invoked and ProcessResults is never
invoked: the whole outcome is the error, an empty results collection and a
trace holding only that single empty Pick. -/
theorem C2_noProfilesRun (s : Scheduler) (req : LLMRequest) (pods : List Pod)
    (ord : Nat → List (String × SchedulerProfile) → List (String × SchedulerProfile))
    (fuel : Nat)
    (h : (s.profileHandler.pick CycleState.new req s.profiles []).1 = []) :
    s.scheduleT req pods ord (fuel + 1) =
      some ⟨none, some (noProfilesRunError req.requestId), [],
        [Event.pickEv CycleState.new [] []
          (s.profileHandler.pick CycleState.new req s.profiles []).2]⟩ := by
  simp only [Scheduler.scheduleT, scheduleLoop, h, List.isEmpty_nil, if_true]

/-- Witness for C2 at a concrete scheduler whose handler picks nothing. -/
theorem C2_noProfilesRun_witness :
    (schedEmpty.profileHandler.pick CycleState.new reqA schedEmpty.profiles []).1 = [] ∧
    schedEmpty.scheduleT reqA [] ordId 1 =
      some ⟨none, some (noProfilesRunError reqA.requestId), [],
        [Event.pickEv CycleState.new [] []
          (schedEmpty.profileHandler.pick CycleState.new reqA schedEmpty.profiles []).2]⟩ :=
  ⟨rfl, C2_noProfilesRun schedEmpty reqA [] ordId 0 rfl⟩

/-- C5: every terminated Schedule call threads exactly one cycle state: the
first plugin invocation receives the freshly created empty state, and every
later invocation (Pick, Run or ProcessResults, across rounds) receives exactly
the state the previous invocation left behind — so a write made in round N is
visible in round N+1. -/
theorem C5_cycleState_threading (s : Scheduler) (req : LLMRequest) (pods : List Pod)
    (ord : Nat → List (String × SchedulerProfile) → List (String × SchedulerProfile))
    (fuel : Nat) (out : ScheduleOutcome)
    (h : s.scheduleT req pods ord fuel = some out) :
    chainFrom CycleState.new out.trace = true := by
  simp only [Scheduler.scheduleT] at h
  split at h
  · simp at h
  · rename_i cs r tr hloop
    obtain ⟨hc, he⟩ := loop_chain s req pods ord fuel CycleState.new [] 0 cs r tr hloop
    by_cases hr : r.isEmpty
    · rw [if_pos hr] at h
      simp only [Option.some.injEq] at h
      subst h
      exact hc
    · rw [if_neg hr] at h
      simp only [Option.some.injEq] at h
      subst h
      show chainFrom CycleState.new (tr ++ [Event.processEv cs r]) = true
      rw [chainFrom_append, hc, he]
      simp [chainFrom, Event.stateIn]

/-- Witness for C5 at a concrete two-round scheduler. -/
theorem C5_cycleState_threading_witness :
    schedTwoRound.scheduleT reqA [] ordId 4 =
      some (outOf (schedTwoRound.scheduleT reqA [] ordId 4)) ∧
    chainFrom CycleState.new (outOf (schedTwoRound.scheduleT reqA [] ordId 4)).trace = true :=
  ⟨by decide, C5_cycleState_threading schedTwoRound reqA [] ordId 4 _ (by decide)⟩

/-- Characterization of the final results collection: each name's entry is the
last run output recorded for it in the trace. -/
theorem scheduleT_lookup (s : Scheduler) (req : LLMRequest) (pods : List Pod)
    (ord : Nat → List (String × SchedulerProfile) → List (String × SchedulerProfile))
    (fuel : Nat) (out : ScheduleOutcome)
    (h : s.scheduleT req pods ord fuel = some out) :
    ∀ k, lookupR k out.finalResults = lastOut k (runPairs out.trace) := by
  simp only [Scheduler.scheduleT] at h
  split at h
  · simp at h
  · rename_i cs r tr hloop
    have hlr := loop_results s req pods ord fuel CycleState.new [] 0 cs r tr hloop
    have hbase : ∀ k, lookupR k r = lastOut k (runPairs tr) := by
      intro k
      rw [hlr k, show lookupR k ([] : ResultsMap) = none from rfl, firstSome_none_right]
    by_cases hr : r.isEmpty
    · rw [if_pos hr] at h
      simp only [Option.some.injEq] at h
      subst h
      exact hbase
    · rw [if_neg hr] at h
      simp only [Option.some.injEq] at h
      subst h
      intro k
      show lookupR k r = lastOut k (runPairs (tr ++ [Event.processEv cs r]))
      rw [runPairs_append, runPairs_cons_proc, runPairs_nil, List.append_nil]
      exact hbase k

/-- C10: the entry the orchestrator stores for a profile is exactly the value
that profile's Run returned — regardless of whether Run also returned an
error: for every name, the final collection's entry is the last run output
recorded in the trace for that name. -/
theorem C10_stored_verbatim (s : Scheduler) (req : LLMRequest) (pods : List Pod)
    (ord : Nat → List (String × SchedulerProfile) → List (String × SchedulerProfile))
    (fuel : Nat) (out : ScheduleOutcome)
    (h : s.scheduleT req pods ord fuel = some out) :
    ∀ k, lookupR k out.finalResults = lastOut k (runPairs out.trace) :=
  scheduleT_lookup s req pods ord fuel out h

/-- Witness for C10: a failing run that returns a non-nil result leaves a
non-nil entry under its name. -/
theorem C10_stored_verbatim_witness :
    schedC1.scheduleT reqA [] ordId 3 = some (outOf (schedC1.scheduleT reqA [] ordId 3)) ∧
    lookupR "p1" (outOf (schedC1.scheduleT reqA [] ordId 3)).finalResults =
      lastOut "p1" (runPairs (outOf (schedC1.scheduleT reqA [] ordId 3)).trace) ∧
    lookupR "p1" (outOf (schedC1.scheduleT reqA [] ordId 3)).finalResults = some (some prA) ∧
    runErrs (outOf (schedC1.scheduleT reqA [] ordId 3)).trace =
      [("p1", some "run failed"), ("p2", none)] :=
  ⟨by decide, C10_stored_verbatim schedC1 reqA [] ordId 3 _ (by decide) "p1",
   by decide, by decide⟩

/-- C3: when the loop ends with a non-empty results collection, ProcessResults
runs exactly once, as the last plugin invocation, on the accumulated
collection, and Schedule returns its result and error verbatim. -/
theorem C3_processResults_once (s : Scheduler) (req : LLMRequest) (pods : List Pod)
    (ord : Nat → List (String × SchedulerProfile) → List (String × SchedulerProfile))
    (fuel : Nat) (out : ScheduleOutcome)
    (h : s.scheduleT req pods ord fuel = some out)
    (hne : out.finalResults ≠ []) :
    processCount out.trace = 1 ∧
    ∃ csEnd, out.trace.getLast? = some (Event.processEv csEnd out.finalResults) ∧
      s.profileHandler.processResults csEnd req out.finalResults = (out.result, out.error) := by
  simp only [Scheduler.scheduleT] at h
  split at h
  · simp at h
  · rename_i cs r tr hloop
    by_cases hr : r.isEmpty
    · rw [if_pos hr] at h
      simp only [Option.some.injEq] at h
      subst h
      exact absurd (List.isEmpty_iff.mp hr) hne
    · rw [if_neg hr] at h
      simp only [Option.some.injEq] at h
      subst h
      obtain ⟨hproc, -, -⟩ := loop_basic s req pods ord fuel CycleState.new [] 0 cs r tr hloop
      refine ⟨?_, cs, ?_, rfl⟩
      · show processCount (tr ++ [Event.processEv cs r]) = 1
        unfold processCount
        rw [List.filter_append]
        rw [List.filter_eq_nil_iff.mpr (by intro e he; simp [hproc e he])]
        rfl
      · show (tr ++ [Event.processEv cs r]).getLast? = some (Event.processEv cs r)
        exact List.getLast?_concat _

/-- Witness for C3 at a concrete one-wave scheduler. -/
theorem C3_processResults_once_witness :
    schedOnce.scheduleT reqA [] ordId 3 = some (outOf (schedOnce.scheduleT reqA [] ordId 3)) ∧
    (outOf (schedOnce.scheduleT reqA [] ordId 3)).finalResults ≠ [] ∧
    processCount (outOf (schedOnce.scheduleT reqA [] ordId 3)).trace = 1 :=
  ⟨by decide, by decide,
   (C3_processResults_once schedOnce reqA [] ordId 3 _ (by decide) (by decide)).1⟩

/-- Counterexample to C1 as stated: profile "p1" of `schedC1` returns an error
from its Run together with a non-nil result; the orchestrator records that
non-nil result under "p1", not a nil entry. -/
theorem C1_counterexample :
    (schedC1.scheduleT reqA [] ordId 3).map
        (fun o => (runErrs o.trace, lookupR "p1" o.finalResults)) =
      some ([("p1", some "run failed"), ("p2", none)], some (some prA)) := by
  decide

/-- C1 (amended): a profile Run failure is caught and the result the Run
returned — nil under the convention that a failing Run returns a nil result —
is recorded under the profile's name; the failure aborts neither the current
wave nor the loop: the runs performed are exactly the picked waves, every name
that was run has an entry in the final collection, and the loop still reaches
its terminating empty Pick. -/
theorem C1_failure_isolated (s : Scheduler) (req : LLMRequest) (pods : List Pod)
    (ord : Nat → List (String × SchedulerProfile) → List (String × SchedulerProfile))
    (hord : ∀ n l, (ord n l).Perm l)
    (fuel : Nat) (out : ScheduleOutcome)
    (h : s.scheduleT req pods ord fuel = some out) :
    runNames out.trace = (pickWaves out.trace).flatten
    ∧ (∀ k, k ∈ runNames out.trace → (lookupR k out.finalResults).isSome = true)
    ∧ (pickWaves out.trace).getLast? = some [] := by
  have hlk := scheduleT_lookup s req pods ord fuel out h
  have hmem : ∀ k, k ∈ runNames out.trace → (lookupR k out.finalResults).isSome = true := by
    intro k hk
    rw [hlk k]
    exact lastOut_isSome_of_mem k _ hk
  simp only [Scheduler.scheduleT] at h
  split at h
  · simp at h
  · rename_i cs r tr hloop
    obtain ⟨hNames, -, hLast, -, -, -, -⟩ :=
      loop_shape s req pods ord hord fuel CycleState.new [] 0 cs r tr hloop
    by_cases hr : r.isEmpty
    · rw [if_pos hr] at h
      simp only [Option.some.injEq] at h
      subst h
      exact ⟨hNames, hmem, hLast⟩
    · rw [if_neg hr] at h
      simp only [Option.some.injEq] at h
      subst h
      refine ⟨?_, hmem, ?_⟩
      · show runNames (tr ++ [Event.processEv cs r]) =
          (pickWaves (tr ++ [Event.processEv cs r])).flatten
        simp only [runNames, runPairs_append, runPairs_cons_proc, runPairs_nil,
          List.append_nil, pickWaves_append, pickWaves_cons_proc, pickWaves_nil]
        exact hNames
      · show (pickWaves (tr ++ [Event.processEv cs r])).getLast? = some []
        simp only [pickWaves_append, pickWaves_cons_proc, pickWaves_nil, List.append_nil]
        exact hLast

/-- Witness for the amended C1 at the concrete scheduler `schedC1` whose
profile "p1" fails. -/
theorem C1_failure_isolated_witness :
    schedC1.scheduleT reqA [] ordId 3 = some (outOf (schedC1.scheduleT reqA [] ordId 3)) ∧
    runNames (outOf (schedC1.scheduleT reqA [] ordId 3)).trace =
      (pickWaves (outOf (schedC1.scheduleT reqA [] ordId 3)).trace).flatten ∧
    (pickWaves (outOf (schedC1.scheduleT reqA [] ordId 3)).trace).getLast? = some [] :=
  ⟨by decide,
   (C1_failure_isolated schedC1 reqA [] ordId (fun _ l => List.Perm.refl l) 3 _ (by decide)).1,
   (C1_failure_isolated schedC1 reqA [] ordId (fun _ l => List.Perm.refl l) 3 _ (by decide)).2.2⟩

/-- C6: within one call the results collection is append-accumulated: across
the successive collection snapshots the plugin invocations receive (every
Pick's input and the final ProcessResults input), an entry changes exactly when
its name was run again since the previous snapshot — it is then overwritten
with that run's output — and is otherwise carried over unchanged; in
particular an entry recorded in round N is present in every later round's Pick
input and in the ProcessResults input. -/
theorem C6_results_accumulated (s : Scheduler) (req : LLMRequest) (pods : List Pod)
    (ord : Nat → List (String × SchedulerProfile) → List (String × SchedulerProfile))
    (fuel : Nat) (out : ScheduleOutcome)
    (h : s.scheduleT req pods ord fuel = some out) :
    List.Chain' segStep (snapshots out.trace) := by
  simp only [Scheduler.scheduleT] at h
  split at h
  · simp at h
  · rename_i cs r tr hloop
    obtain ⟨-, hLast, hChain⟩ :=
      loop_snapshots s req pods ord fuel CycleState.new [] 0 cs r tr hloop
    obtain ⟨-, -, hPend⟩ := loop_basic s req pods ord fuel CycleState.new [] 0 cs r tr hloop
    by_cases hr : r.isEmpty
    · rw [if_pos hr] at h
      simp only [Option.some.injEq] at h
      subst h
      exact hChain
    · rw [if_neg hr] at h
      simp only [Option.some.injEq] at h
      subst h
      show List.Chain' segStep (snapshots (tr ++ [Event.processEv cs r]))
      have hsn : snapshots (tr ++ [Event.processEv cs r]) =
          snapshots tr ++ [([], r)] := by
        show snapshotsAux [] (tr ++ [Event.processEv cs r]) = _
        rw [snapshotsAux_append, hPend []]
        rfl
      rw [hsn, List.chain'_append]
      refine ⟨hChain, List.chain'_singleton _, ?_⟩
      intro x hx y hy
      simp only [List.head?_cons, Option.mem_def, Option.some.injEq] at hy
      subst hy
      have hx2 : x.2 = r := by
        rw [Option.mem_def] at hx
        rw [hx] at hLast
        simpa using hLast
      intro k
      simp only [lastOut, firstSome, hx2]

/-- Witness for C6 at a concrete two-round scheduler (a nil entry recorded in
round one is visible to round two's Pick and is overwritten there). -/
theorem C6_results_accumulated_witness :
    schedTwoRound.scheduleT reqA [] ordId 4 =
      some (outOf (schedTwoRound.scheduleT reqA [] ordId 4)) ∧
    List.Chain' segStep (snapshots (outOf (schedTwoRound.scheduleT reqA [] ordId 4)).trace) :=
  ⟨by decide, C6_results_accumulated schedTwoRound reqA [] ordId 4 _ (by decide)⟩

/-- C7: the round loop exits exactly on an empty Pick — in every terminated
execution the recorded waves form a non-empty sequence whose last element is
the empty selection and whose earlier elements are all non-empty (every
non-empty Pick leads to another round) — and the loop is unbounded: with a
handler that always picks a profile, no amount of fuel reaches the end of the
loop. -/
theorem C7_loop_ends_only_on_empty_pick :
    (∀ (s : Scheduler) (req : LLMRequest) (pods : List Pod)
        (ord : Nat → List (String × SchedulerProfile) → List (String × SchedulerProfile)),
        (∀ n l, (ord n l).Perm l) →
        ∀ (fuel : Nat) (out : ScheduleOutcome), s.scheduleT req pods ord fuel = some out →
          pickWaves out.trace ≠ []
          ∧ (pickWaves out.trace).getLast? = some []
          ∧ [] ∉ (pickWaves out.trace).dropLast)
    ∧ (∀ (req : LLMRequest) (pods : List Pod) (fuel : Nat),
        alwaysScheduler.scheduleT req pods ordId fuel = none) := by
  constructor
  · intro s req pods ord hord fuel out h
    simp only [Scheduler.scheduleT] at h
    split at h
    · simp at h
    · rename_i cs r tr hloop
      obtain ⟨-, hNe, hLast, hDrop, -, -, -⟩ :=
        loop_shape s req pods ord hord fuel CycleState.new [] 0 cs r tr hloop
      by_cases hr : r.isEmpty
      · rw [if_pos hr] at h
        simp only [Option.some.injEq] at h
        subst h
        exact ⟨hNe, hLast, hDrop⟩
      · rw [if_neg hr] at h
        simp only [Option.some.injEq] at h
        subst h
        refine ⟨?_, ?_, ?_⟩ <;>
            simp only [ScheduleOutcome.trace, pickWaves_append, pickWaves_cons_proc,
              pickWaves_nil, List.append_nil]
        · exact hNe
        · exact hLast
        · exact hDrop
  · intro req pods fuel
    simp only [Scheduler.scheduleT]
    rw [alwaysLoop_none req pods fuel CycleState.new [] 0]

/-- Witness for C7: a terminating scheduler ends on the empty pick, and the
always-picking scheduler exhausts any amount of fuel. -/
theorem C7_loop_ends_only_on_empty_pick_witness :
    schedOnce.scheduleT reqA [] ordId 3 = some (outOf (schedOnce.scheduleT reqA [] ordId 3)) ∧
    (pickWaves (outOf (schedOnce.scheduleT reqA [] ordId 3)).trace).getLast? = some [] ∧
    alwaysScheduler.scheduleT reqA [] ordId 7 = none :=
  ⟨by decide,
   (C7_loop_ends_only_on_empty_pick.1 schedOnce reqA [] ordId
     (fun _ l => List.Perm.refl l) 3 _ (by decide)).2.1,
   C7_loop_ends_only_on_empty_pick.2 reqA [] 7⟩

/-- C9: with an empty candidate-pod list the orchestrator does not reject the
call: the loop runs as usual, every profile Run receives exactly the empty
list, and a returned error can only be the no-profiles-run error (the
handler picked nothing) or the error ProcessResults itself returned verbatim
on the accumulated results. -/
theorem C9_empty_pods_passed_through (s : Scheduler) (req : LLMRequest)
    (ord : Nat → List (String × SchedulerProfile) → List (String × SchedulerProfile))
    (fuel : Nat) (out : ScheduleOutcome)
    (h : s.scheduleT req [] ord fuel = some out) :
    (∀ e ∈ out.trace, e.runPods = none ∨ e.runPods = some [])
    ∧ (∀ err, out.error = some err →
        err = noProfilesRunError req.requestId ∨
        ∃ csEnd, out.trace.getLast? = some (Event.processEv csEnd out.finalResults) ∧
          s.profileHandler.processResults csEnd req out.finalResults =
            (out.result, some err)) := by
  simp only [Scheduler.scheduleT] at h
  split at h
  · simp at h
  · rename_i cs r tr hloop
    obtain ⟨-, hPods, -⟩ := loop_basic s req [] ord fuel CycleState.new [] 0 cs r tr hloop
    by_cases hr : r.isEmpty
    · rw [if_pos hr] at h
      simp only [Option.some.injEq] at h
      subst h
      refine ⟨hPods, ?_⟩
      intro err herr
      simp only [Option.some.injEq] at herr
      exact Or.inl herr.symm
    · rw [if_neg hr] at h
      simp only [Option.some.injEq] at h
      subst h
      constructor
      · intro e he
        simp only [List.mem_append, List.mem_singleton] at he
        rcases he with he | he
        · exact hPods e he
        · subst he; exact Or.inl rfl
      · intro err herr
        refine Or.inr ⟨cs, List.getLast?_concat _, ?_⟩
        show s.profileHandler.processResults cs req r = (_, some err)
        rw [← herr]

/-- Witness for C9: the empty pod list reaches the profile's Run unchanged. -/
theorem C9_empty_pods_passed_through_witness :
    schedOnce.scheduleT reqA [] ordId 3 = some (outOf (schedOnce.scheduleT reqA [] ordId 3)) ∧
    Event.runEv "p1" CycleState.new [] (some prA) none CycleState.new ∈
      (outOf (schedOnce.scheduleT reqA [] ordId 3)).trace ∧
    ((Event.runEv "p1" CycleState.new [] (some prA) none CycleState.new).runPods = none ∨
     (Event.runEv "p1" CycleState.new [] (some prA) none CycleState.new).runPods = some []) :=
  ⟨by decide, by decide,
   (C9_empty_pods_passed_through schedOnce reqA ordId 3
       (outOf (schedOnce.scheduleT reqA [] ordId 3)) (by decide)).1
     (Event.runEv "p1" CycleState.new [] (some prA) none CycleState.new) (by decide)⟩

/-- Counterexample to C4 as stated: with a handler whose ProcessResults
returns a result together with an error, Schedule returns both — a non-nil
Scheduling Result alongside a non-nil error. -/
theorem C4_counterexample :
    (schedC4.scheduleT reqA [] ordId 3).map (fun o => (o.result.isSome, o.error.isSome)) =
      some (true, true) := by
  decide

/-- C4 (amended): the orchestrator itself never pairs a result with an error:
in the no-profiles-run case it returns no result at all, and otherwise it
returns exactly the ProcessResults pair — so whenever the handler never
returns a non-nil result together with a non-nil error, no Schedule call
does either. -/
theorem C4_no_partial_result (s : Scheduler) (req : LLMRequest) (pods : List Pod)
    (ord : Nat → List (String × SchedulerProfile) → List (String × SchedulerProfile))
    (fuel : Nat) (out : ScheduleOutcome)
    (hproc : ∀ cs q r, (s.profileHandler.processResults cs q r).1 = none ∨
        (s.profileHandler.processResults cs q r).2 = none)
    (h : s.scheduleT req pods ord fuel = some out) :
    out.result = none ∨ out.error = none := by
  simp only [Scheduler.scheduleT] at h
  split at h
  · simp at h
  · rename_i cs r tr hloop
    by_cases hr : r.isEmpty
    · rw [if_pos hr] at h
      simp only [Option.some.injEq] at h
      subst h
      exact Or.inl rfl
    · rw [if_neg hr] at h
      simp only [Option.some.injEq] at h
      subst h
      exact hproc cs req r

/-- Witness for the amended C4 at a handler that never returns both. -/
theorem C4_no_partial_result_witness :
    schedOnce.scheduleT reqA [] ordId 3 = some (outOf (schedOnce.scheduleT reqA [] ordId 3)) ∧
    ((outOf (schedOnce.scheduleT reqA [] ordId 3)).result = none ∨
     (outOf (schedOnce.scheduleT reqA [] ordId 3)).error = none) :=
  ⟨by decide,
   C4_no_partial_result schedOnce reqA [] ordId 3 _ (fun _ _ _ => Or.inr rfl) (by decide)⟩

/-- Counterexample to C8 as stated: `schedC8` with the same request, pods and
configuration, under two legal iteration orders of the same picked wave
(`["pA", "pB"]` versus `["pB", "pA"]`), returns two different Scheduling
Results, because "pA" writes a cycle-state flag that "pB" reads. -/
theorem C8_counterexample :
    (schedC8.scheduleT reqA [] ordId 3).map
        (fun o => (pickWaves o.trace, o.result.map SchedulingResult.targetPod)) =
      some ([["pA", "pB"], []], some (some podA))
    ∧ (schedC8.scheduleT reqA [] ordRev 3).map
        (fun o => (pickWaves o.trace, o.result.map SchedulingResult.targetPod)) =
      some ([["pB", "pA"], []], some none) := by
  constructor
  · decide
  · decide

theorem upsert_keys (k : String) (v : Option ProfileRunResult) :
    ∀ r : ResultsMap, (upsert r k v).map Prod.fst =
      if k ∈ r.map Prod.fst then r.map Prod.fst else r.map Prod.fst ++ [k] := by
  intro r
  induction r with
  | nil => simp [upsert]
  | cons p r ih =>
    by_cases hp : p.1 = k
    · simp [upsert, hp]
    · have hkp : ¬k = p.1 := fun h => hp h.symm
      simp only [upsert, hp, if_neg, not_false_iff, List.map_cons, ih, List.mem_cons, hkp,
        false_or]
      by_cases hk : k ∈ r.map Prod.fst <;> simp [hk]

theorem upsert_nodupKeys (r : ResultsMap) (k : String) (v : Option ProfileRunResult)
    (h : nodupKeys r) : nodupKeys (upsert r k v) := by
  unfold nodupKeys at *
  rw [upsert_keys]
  split
  · exact h
  · rename_i hk
    simp [List.nodup_append, h, hk]

theorem upsert_perm (k : String) (v : Option ProfileRunResult) :
    ∀ {r₁ r₂ : ResultsMap}, r₁.Perm r₂ → nodupKeys r₁ →
      (upsert r₁ k v).Perm (upsert r₂ k v) := by
  intro r₁ r₂ hperm
  induction hperm with
  | nil => intro _; exact List.Perm.refl _
  | cons x h ih =>
    intro hn
    by_cases hx : x.1 = k
    · simp only [upsert, hx, if_pos]
      exact h.cons _
    · simp only [upsert, hx, if_neg, not_false_iff]
      exact (ih ((List.nodup_cons.mp hn).2)).cons x
  | swap x y l =>
    intro hn
    have hyx : y.1 ≠ x.1 := by
      have := (List.nodup_cons.mp hn).1
      simp only [List.map_cons, List.mem_cons] at this
      intro hcon
      exact this (Or.inl hcon)
    by_cases hy : y.1 = k
    · have hx : x.1 ≠ k := fun hc => hyx (hy.trans hc.symm)
      simp only [upsert, hy, hx, if_pos, if_neg, not_false_iff]
      exact List.Perm.swap _ _ _
    · by_cases hx : x.1 = k
      · simp only [upsert, hy, hx, if_pos, if_neg, not_false_iff]
        exact List.Perm.swap _ _ _
      · simp only [upsert, hy, hx, if_neg, not_false_iff]
        exact List.Perm.swap _ _ _
  | trans h₁ h₂ ih₁ ih₂ =>
    intro hn
    have hn₂ := (h₁.map Prod.fst).nodup hn
    exact (ih₁ hn).trans (ih₂ hn₂)

theorem upsert_comm (j k : String) (u v : Option ProfileRunResult) (hjk : j ≠ k) :
    ∀ r : ResultsMap, (upsert (upsert r j u) k v).Perm (upsert (upsert r k v) j u) := by
  intro r
  induction r with
  | nil =>
    have hkj : ¬k = j := fun h => hjk h.symm
    simp only [upsert, hjk, hkj, if_neg, not_false_iff]
    exact List.Perm.swap _ _ _
  | cons p r ih =>
    by_cases hpj : p.1 = j
    · have hpk : p.1 ≠ k := fun h => hjk (hpj.symm.trans h)
      simp only [upsert, hpj, hpk, hjk, if_pos, if_neg, not_false_iff]
      exact List.Perm.refl _
    · by_cases hpk : p.1 = k
      · have hkj : ¬k = j := fun h => hjk h.symm
        simp only [upsert, hpj, hpk, hkj, if_pos, if_neg, not_false_iff]
        exact List.Perm.refl _
      · simp only [upsert, hpj, hpk, if_neg, not_false_iff]
        exact ih.cons p

theorem applyPairs_nodup :
    ∀ (ws : List (String × Option ProfileRunResult)) (r : ResultsMap),
      nodupKeys r → nodupKeys (applyPairs r ws) := by
  intro ws
  induction ws with
  | nil => intro r h; exact h
  | cons x ws ih =>
    intro r h
    exact ih _ (upsert_nodupKeys r x.1 x.2 h)

theorem applyPairs_congrPerm :
    ∀ (ws : List (String × Option ProfileRunResult)) (r₁ r₂ : ResultsMap),
      r₁.Perm r₂ → nodupKeys r₁ → (applyPairs r₁ ws).Perm (applyPairs r₂ ws) := by
  intro ws
  induction ws with
  | nil => intro r₁ r₂ h _; exact h
  | cons x ws ih =>
    intro r₁ r₂ h hn
    exact ih _ _ (upsert_perm x.1 x.2 h hn) (upsert_nodupKeys r₁ x.1 x.2 hn)

theorem applyPairs_wavePerm :
    ∀ {ws₁ ws₂ : List (String × Option ProfileRunResult)}, ws₁.Perm ws₂ →
      (ws₁.map Prod.fst).Nodup →
      ∀ r : ResultsMap, nodupKeys r → (applyPairs r ws₁).Perm (applyPairs r ws₂) := by
  intro ws₁ ws₂ hperm
  induction hperm with
  | nil => intro _ r _; exact List.Perm.refl _
  | cons x h ih =>
    intro hn r hr
    exact ih (List.nodup_cons.mp hn).2 _ (upsert_nodupKeys r x.1 x.2 hr)
  | swap x y l =>
    intro hn r hr
    have hyx : y.1 ≠ x.1 := by
      have := (List.nodup_cons.mp hn).1
      simp only [List.map_cons, List.mem_cons] at this
      intro hcon
      exact this (Or.inl hcon)
    have hbase := upsert_comm y.1 x.1 y.2 x.2 hyx r
    show (applyPairs (upsert (upsert r y.1 y.2) x.1 x.2) l).Perm
      (applyPairs (upsert (upsert r x.1 x.2) y.1 y.2) l)
    exact applyPairs_congrPerm l _ _ hbase
      (upsert_nodupKeys _ x.1 x.2 (upsert_nodupKeys r y.1 y.2 hr))
  | trans h₁ h₂ ih₁ ih₂ =>
    intro hn r hr
    exact (ih₁ hn r hr).trans (ih₂ ((h₁.map Prod.fst).nodup hn) r hr)

theorem runWave_inert (req : LLMRequest) (pods : List Pod) :
    ∀ (w : List (String × SchedulerProfile)) (cs : CycleState) (r : ResultsMap),
      (∀ np ∈ w, ∀ (q : LLMRequest) (cs' : CycleState) (ps : List Pod),
        (np.2.run q cs' ps).2 = cs') →
      (runWave req pods cs r w).1 = cs ∧
      (runWave req pods cs r w).2.1 =
        applyPairs r (w.map (fun np => (np.1, (np.2.run req cs pods).1.1))) := by
  intro w
  induction w with
  | nil => intro cs r _; exact ⟨rfl, rfl⟩
  | cons np w ih =>
    intro cs r hinert
    have hstep : (np.2.run req cs pods).2 = cs :=
      hinert np (List.mem_cons_self _ _) req cs pods
    have htail := ih cs (upsert r np.1 (np.2.run req cs pods).1.1)
      (fun np' h' => hinert np' (List.mem_cons_of_mem _ h'))
    constructor
    · show (runWave req pods (np.2.run req cs pods).2
        (upsert r np.1 (np.2.run req cs pods).1.1) w).1 = cs
      rw [hstep]
      exact htail.1
    · show (runWave req pods (np.2.run req cs pods).2
        (upsert r np.1 (np.2.run req cs pods).1.1) w).2.1 = _
      rw [hstep, htail.2]
      rfl

theorem loop_perm (s : Scheduler) (req : LLMRequest) (pods : List Pod)
    (ord₁ ord₂ : Nat → List (String × SchedulerProfile) → List (String × SchedulerProfile))
    (hord₁ : ∀ n l, (ord₁ n l).Perm l) (hord₂ : ∀ n l, (ord₂ n l).Perm l)
    (hpickPerm : ∀ cs q r₁ r₂, r₁.Perm r₂ →
      s.profileHandler.pick cs q s.profiles r₁ = s.profileHandler.pick cs q s.profiles r₂)
    (hnodup : ∀ cs q r, ((s.profileHandler.pick cs q s.profiles r).1.map Prod.fst).Nodup)
    (hinert : ∀ cs q r, ∀ np ∈ (s.profileHandler.pick cs q s.profiles r).1,
      ∀ (q' : LLMRequest) (cs' : CycleState) (ps : List Pod), (np.2.run q' cs' ps).2 = cs') :
    ∀ (fuel : Nat) (cs : CycleState) (r₁ r₂ : ResultsMap) (n : Nat),
      r₁.Perm r₂ → nodupKeys r₁ →
      loopRel (scheduleLoop s req pods ord₁ fuel cs r₁ n)
        (scheduleLoop s req pods ord₂ fuel cs r₂ n) := by
  intro fuel
  induction fuel with
  | zero => intro cs r₁ r₂ n _ _; exact trivial
  | succ fuel ih =>
    intro cs r₁ r₂ n hperm hnd
    have hp : s.profileHandler.pick cs req s.profiles r₂ =
        s.profileHandler.pick cs req s.profiles r₁ :=
      (hpickPerm cs req r₁ r₂ hperm).symm
    simp only [scheduleLoop, hp]
    by_cases hemp : (s.profileHandler.pick cs req s.profiles r₁).1.isEmpty
    · rw [if_pos hemp, if_pos hemp]
      exact ⟨rfl, hperm, hnd⟩
    · rw [if_neg hemp, if_neg hemp]
      have hin₁ : ∀ np ∈ ord₁ n (s.profileHandler.pick cs req s.profiles r₁).1,
          ∀ (q' : LLMRequest) (cs' : CycleState) (ps : List Pod),
            (np.2.run q' cs' ps).2 = cs' :=
        fun np hnp => hinert cs req r₁ np ((hord₁ n _).subset hnp)
      have hin₂ : ∀ np ∈ ord₂ n (s.profileHandler.pick cs req s.profiles r₁).1,
          ∀ (q' : LLMRequest) (cs' : CycleState) (ps : List Pod),
            (np.2.run q' cs' ps).2 = cs' :=
        fun np hnp => hinert cs req r₁ np ((hord₂ n _).subset hnp)
      have hw₁ := runWave_inert req pods
        (ord₁ n (s.profileHandler.pick cs req s.profiles r₁).1)
        (s.profileHandler.pick cs req s.profiles r₁).2 r₁ hin₁
      have hw₂ := runWave_inert req pods
        (ord₂ n (s.profileHandler.pick cs req s.profiles r₁).1)
        (s.profileHandler.pick cs req s.profiles r₁).2 r₂ hin₂
      have hwperm : (ord₁ n (s.profileHandler.pick cs req s.profiles r₁).1).Perm
          (ord₂ n (s.profileHandler.pick cs req s.profiles r₁).1) :=
        (hord₁ n _).trans (hord₂ n _).symm
      have hwsperm :
          ((ord₁ n (s.profileHandler.pick cs req s.profiles r₁).1).map
            (fun np => (np.1, (np.2.run req (s.profileHandler.pick cs req s.profiles r₁).2
              pods).1.1))).Perm
          ((ord₂ n (s.profileHandler.pick cs req s.profiles r₁).1).map
            (fun np => (np.1, (np.2.run req (s.profileHandler.pick cs req s.profiles r₁).2
              pods).1.1))) :=
        hwperm.map _
      have hkeys : (((ord₁ n (s.profileHandler.pick cs req s.profiles r₁).1).map
          (fun np => (np.1, (np.2.run req (s.profileHandler.pick cs req s.profiles r₁).2
            pods).1.1))).map Prod.fst).Nodup := by
        rw [List.map_map]
        exact ((hord₁ n _).map Prod.fst).symm.nodup (hnodup cs req r₁)
      have hres : ((runWave req pods (s.profileHandler.pick cs req s.profiles r₁).2 r₁
          (ord₁ n (s.profileHandler.pick cs req s.profiles r₁).1)).2.1).Perm
          ((runWave req pods (s.profileHandler.pick cs req s.profiles r₁).2 r₂
          (ord₂ n (s.profileHandler.pick cs req s.profiles r₁).1)).2.1) := by
        rw [hw₁.2, hw₂.2]
        exact (applyPairs_wavePerm hwsperm hkeys r₁ hnd).trans
          (applyPairs_congrPerm _ r₁ r₂ hperm hnd)
      have hresnd : nodupKeys ((runWave req pods
          (s.profileHandler.pick cs req s.profiles r₁).2 r₁
          (ord₁ n (s.profileHandler.pick cs req s.profiles r₁).1)).2.1) := by
        rw [hw₁.2]
        exact applyPairs_nodup _ r₁ hnd
      have hrec := ih (runWave req pods (s.profileHandler.pick cs req s.profiles r₁).2 r₁
          (ord₁ n (s.profileHandler.pick cs req s.profiles r₁).1)).1
        (runWave req pods (s.profileHandler.pick cs req s.profiles r₁).2 r₁
          (ord₁ n (s.profileHandler.pick cs req s.profiles r₁).1)).2.1
        (runWave req pods (s.profileHandler.pick cs req s.profiles r₁).2 r₂
          (ord₂ n (s.profileHandler.pick cs req s.profiles r₁).1)).2.1
        (n + 1) hres hresnd
      have hstates : (runWave req pods (s.profileHandler.pick cs req s.profiles r₁).2 r₂
          (ord₂ n (s.profileHandler.pick cs req s.profiles r₁).1)).1 =
          (runWave req pods (s.profileHandler.pick cs req s.profiles r₁).2 r₁
          (ord₁ n (s.profileHandler.pick cs req s.profiles r₁).1)).1 := by
        rw [hw₁.1, hw₂.1]
      rw [hstates]
      cases h₁ : scheduleLoop s req pods ord₁ fuel
          (runWave req pods (s.profileHandler.pick cs req s.profiles r₁).2 r₁
            (ord₁ n (s.profileHandler.pick cs req s.profiles r₁).1)).1
          (runWave req pods (s.profileHandler.pick cs req s.profiles r₁).2 r₁
            (ord₁ n (s.profileHandler.pick cs req s.profiles r₁).1)).2.1
          (n + 1) with
      | none =>
        cases h₂ : scheduleLoop s req pods ord₂ fuel
            (runWave req pods (s.profileHandler.pick cs req s.profiles r₁).2 r₁
              (ord₁ n (s.profileHandler.pick cs req s.profiles r₁).1)).1
            (runWave req pods (s.profileHandler.pick cs req s.profiles r₁).2 r₂
              (ord₂ n (s.profileHandler.pick cs req s.profiles r₁).1)).2.1
            (n + 1) with
        | none => exact trivial
        | some trip₂ =>
          rw [h₁, h₂] at hrec
          exact hrec.elim
      | some trip₁ =>
        cases h₂ : scheduleLoop s req pods ord₂ fuel
            (runWave req pods (s.profileHandler.pick cs req s.profiles r₁).2 r₁
              (ord₁ n (s.profileHandler.pick cs req s.profiles r₁).1)).1
            (runWave req pods (s.profileHandler.pick cs req s.profiles r₁).2 r₂
              (ord₂ n (s.profileHandler.pick cs req s.profiles r₁).1)).2.1
            (n + 1) with
        | none =>
          rw [h₁, h₂] at hrec
          exact hrec.elim
        | some trip₂ =>
          obtain ⟨c₁, q₁, t₁⟩ := trip₁
          obtain ⟨c₂, q₂, t₂⟩ := trip₂
          rw [h₁, h₂] at hrec
          exact hrec

/-- C8 (amended): for identical request, candidate pods and profile/handler
configuration, Schedule is a deterministic pure function, and its returned
result and error are independent of the intra-wave iteration order provided
the profiles the handler picks do not mutate the Cycle State during Run and
the handler reads the results collection as an unordered map (its Pick and
ProcessResults are invariant under permutation of the collection).  Without
those provisos, profiles may communicate through the Cycle State within one
wave and the result can depend on the iteration order. -/
theorem C8_determinism (s : Scheduler) (req : LLMRequest) (pods : List Pod)
    (ord₁ ord₂ : Nat → List (String × SchedulerProfile) → List (String × SchedulerProfile))
    (hord₁ : ∀ n l, (ord₁ n l).Perm l) (hord₂ : ∀ n l, (ord₂ n l).Perm l)
    (hpickPerm : ∀ cs q r₁ r₂, r₁.Perm r₂ →
      s.profileHandler.pick cs q s.profiles r₁ = s.profileHandler.pick cs q s.profiles r₂)
    (hprocPerm : ∀ cs q r₁ r₂, r₁.Perm r₂ →
      s.profileHandler.processResults cs q r₁ = s.profileHandler.processResults cs q r₂)
    (hnodup : ∀ cs q r, ((s.profileHandler.pick cs q s.profiles r).1.map Prod.fst).Nodup)
    (hinert : ∀ cs q r, ∀ np ∈ (s.profileHandler.pick cs q s.profiles r).1,
      ∀ (q' : LLMRequest) (cs' : CycleState) (ps : List Pod), (np.2.run q' cs' ps).2 = cs')
    (fuel : Nat) :
    (s.scheduleT req pods ord₁ fuel).map (fun o => (o.result, o.error)) =
      (s.scheduleT req pods ord₂ fuel).map (fun o => (o.result, o.error)) := by
  have hrel := loop_perm s req pods ord₁ ord₂ hord₁ hord₂ hpickPerm hnodup hinert
    fuel CycleState.new [] [] 0 (List.Perm.refl _) (by simp [nodupKeys])
  simp only [Scheduler.scheduleT]
  cases h₁ : scheduleLoop s req pods ord₁ fuel CycleState.new [] 0 with
  | none =>
    cases h₂ : scheduleLoop s req pods ord₂ fuel CycleState.new [] 0 with
    | none => rfl
    | some trip₂ =>
      rw [h₁, h₂] at hrel
      exact hrel.elim
  | some trip₁ =>
    cases h₂ : scheduleLoop s req pods ord₂ fuel CycleState.new [] 0 with
    | none =>
      rw [h₁, h₂] at hrel
      exact hrel.elim
    | some trip₂ =>
      obtain ⟨cs₁, q₁, t₁⟩ := trip₁
      obtain ⟨cs₂, q₂, t₂⟩ := trip₂
      rw [h₁, h₂] at hrel
      obtain ⟨hcs, hq, -⟩ := hrel
      subst hcs
      dsimp only at hq ⊢
      by_cases hq1 : q₁.isEmpty
      · have hq2 : q₂.isEmpty = true := by
          rw [List.isEmpty_iff] at hq1 ⊢
          rw [hq1] at hq
          exact hq.symm.eq_nil
        rw [if_pos hq1, if_pos hq2]
        rfl
      · have hq2 : ¬q₂.isEmpty = true := by
          intro hc
          rw [List.isEmpty_iff] at hc hq1
          rw [hc] at hq
          exact hq1 hq.eq_nil
        rw [if_neg hq1, if_neg hq2]
        rw [hprocPerm cs₁ req q₁ q₂ hq]
        rfl

/-- Witness for the amended C8: a state-inert, order-oblivious configuration
gives the same outcome under the identity and the reversed iteration orders. -/
theorem C8_determinism_witness :
    (schedInert.scheduleT reqA [] ordId 5).map (fun o => (o.result, o.error)) =
      (schedInert.scheduleT reqA [] ordRev 5).map (fun o => (o.result, o.error)) :=
  C8_determinism schedInert reqA [] ordId ordRev
    (fun _ l => List.Perm.refl l) (fun _ l => l.reverse_perm)
    (fun _ _ _ _ _ => rfl) (fun _ _ _ _ _ => rfl)
    (by
      intro cs q r
      show ((if CycleState.read "done" cs = some 1 then ([] : List (String × SchedulerProfile))
        else [("p", okProfile)]).map Prod.fst).Nodup
      split <;> simp)
    (by
      intro cs q r np hnp q' cs' ps
      revert hnp
      show np ∈ (if CycleState.read "done" cs = some 1 then ([] : List (String × SchedulerProfile))
        else [("p", okProfile)]) → _
      split
      · intro hnp
        simp at hnp
      · intro hnp
        simp only [List.mem_singleton] at hnp
        subst hnp
        rfl)
    5

end GIE
